import Mathlib

/-!
Shallow embedding of the AudioShift audio-to-text pipeline core
(`src-tauri/src`): the model catalog (`model_registry.rs`), model
acquisition and engine loading (`transcriber.rs`), the recording session
(`recorder.rs`, `state.rs`, `commands.rs`) and the batch file
transcription pipeline (`file_queue.rs`).

Modelling conventions:
* the filesystem is a list of `(model_id, file_name)` pairs (`Disk`);
* audio samples (`f32`) and ratios (`f64`) are embedded as exact
  rationals (`Rat`); the Rust code computes percentages and blends in
  `f64` and truncates with `as u32`/`as u64`, which we embed as exact
  rational arithmetic followed by `Nat` floor division / `Rat.floor`;
* effects (device resolution, stream construction, decode, inference,
  HTTP chunk delivery, external cancellation) are passed in as explicit
  parameters, and code that mutates shared state is embedded as explicit
  state passing.
-/

namespace Parsec

/-! ## model_registry.rs -/

inductive Engine where
  | parakeet
  | whisper
deriving DecidableEq

structure ModelFile where
  url : String
  rename_to : Option String
deriving DecidableEq

structure ModelDef where
  id : String
  name : String
  engine : Engine
  approx_bytes : Nat
  files : List ModelFile
deriving DecidableEq

def DEFAULT_MODEL_ID : String := "parakeet-tdt-0.6b-v3"

def parakeetTdt : ModelDef :=
  { id := "parakeet-tdt-0.6b-v3"
    name := "Parakeet TDT 0.6b v3"
    engine := .parakeet
    approx_bytes := 680000000
    files :=
      [ { url := "https://huggingface.co/istupakov/parakeet-tdt-0.6b-v3-onnx/resolve/main/encoder-model.int8.onnx", rename_to := some "encoder-model.onnx" }
      , { url := "https://huggingface.co/istupakov/parakeet-tdt-0.6b-v3-onnx/resolve/main/decoder_joint-model.int8.onnx", rename_to := some "decoder_joint-model.onnx" }
      , { url := "https://huggingface.co/istupakov/parakeet-tdt-0.6b-v3-onnx/resolve/main/vocab.txt", rename_to := none }
      , { url := "https://huggingface.co/istupakov/parakeet-tdt-0.6b-v3-onnx/resolve/main/config.json", rename_to := none }
      , { url := "https://huggingface.co/istupakov/parakeet-tdt-0.6b-v3-onnx/resolve/main/nemo128.onnx", rename_to := none } ] }

def whisperLargeTurboQ5 : ModelDef :=
  { id := "whisper-large-v3-turbo-q5_0"
    name := "Whisper Large v3 Turbo (Q5)"
    engine := .whisper
    approx_bytes := 574000000
    files :=
      [ { url := "https://huggingface.co/ggerganov/whisper.cpp/resolve/main/ggml-large-v3-turbo-q5_0.bin", rename_to := some "model.bin" } ] }

def whisperLargeTurboQ8 : ModelDef :=
  { id := "whisper-large-v3-turbo-q8_0"
    name := "Whisper Large v3 Turbo (Q8)"
    engine := .whisper
    approx_bytes := 874000000
    files :=
      [ { url := "https://huggingface.co/ggerganov/whisper.cpp/resolve/main/ggml-large-v3-turbo-q8_0.bin", rename_to := some "model.bin" } ] }

def whisperMediumQ5 : ModelDef :=
  { id := "whisper-medium-q5_0"
    name := "Whisper Medium (Q5)"
    engine := .whisper
    approx_bytes := 539000000
    files :=
      [ { url := "https://huggingface.co/ggerganov/whisper.cpp/resolve/main/ggml-medium-q5_0.bin", rename_to := some "model.bin" } ] }

def whisperSmallQ5 : ModelDef :=
  { id := "whisper-small-q5_1"
    name := "Whisper Small (Q5)"
    engine := .whisper
    approx_bytes := 190000000
    files :=
      [ { url := "https://huggingface.co/ggerganov/whisper.cpp/resolve/main/ggml-small-q5_1.bin", rename_to := some "model.bin" } ] }

def MODELS : List ModelDef :=
  [parakeetTdt, whisperLargeTurboQ5, whisperLargeTurboQ8, whisperMediumQ5, whisperSmallQ5]

def find_model (id : String) : Option ModelDef :=
  MODELS.find? (fun m => m.id = id)

def lastSegmentChars : List Char → List Char → List Char
  | [], acc => acc
  | c :: cs, acc =>
    if c = '/' then lastSegmentChars cs [] else lastSegmentChars cs (acc ++ [c])

/-- `url.rsplit('/').next().unwrap_or("unknown")`: the URL's trailing
path segment, i.e. the suffix after the last `/` (the whole string when
there is none; the `unwrap_or` default is unreachable since `rsplit`
always yields at least one piece). -/
def lastSegment (url : String) : String :=
  String.mk (lastSegmentChars url.data [])

/-- `file_dest_name`: the rename-to name if present, else the URL's
trailing path segment. -/
def file_dest_name (f : ModelFile) : String :=
  match f.rename_to with
  | some n => n
  | none => lastSegment f.url

/-- The filesystem restricted to what the pipeline touches: the set of
`(model_id, file_name)` pairs present under `models/<model_id>/`. -/
abbrev Disk : Type := List (String × String)

def existsOn (d : Disk) (id name : String) : Bool :=
  decide ((id, name) ∈ d)

def removeFile (d : Disk) (p : String × String) : Disk :=
  List.filter (fun q => decide (q ≠ p)) d

def insertFile (d : Disk) (p : String × String) : Disk :=
  p :: d

/-- `model_ready`: true iff the id is in the catalog and every file's
destination name exists in the model's directory. -/
def model_ready (d : Disk) (id : String) : Bool :=
  match find_model id with
  | none => false
  | some m => m.files.all (fun f => existsOn d id (file_dest_name f))

theorem mem_removeFile {d : Disk} {p q : String × String} :
    q ∈ removeFile d p ↔ q ∈ d ∧ q ≠ p := by
  unfold removeFile
  simp [List.mem_filter]

/-- C7: `readiness(id)` is true iff every expected destination file
(rename-to name if present, else the URL's trailing path segment) exists
in the model's directory; removing any one such file flips readiness to
false; and readiness of an id not in the catalog is false. -/
theorem model_ready_spec (d : Disk) (id : String) :
    (model_ready d id = true ↔
      ∃ m, find_model id = some m ∧ ∀ f ∈ m.files, (id, file_dest_name f) ∈ d)
    ∧ (∀ m, find_model id = some m → ∀ f ∈ m.files,
        model_ready (removeFile d (id, file_dest_name f)) id = false)
    ∧ (find_model id = none → model_ready d id = false) := by
  refine ⟨?_, ?_, ?_⟩
  · constructor
    · intro h
      unfold model_ready at h
      cases hf : find_model id with
      | none => rw [hf] at h; exact absurd h (by simp)
      | some m =>
        rw [hf] at h
        refine ⟨m, rfl, ?_⟩
        intro f hmem
        have := (List.all_eq_true.mp h) f hmem
        simpa [existsOn] using this
    · rintro ⟨m, hm, hall⟩
      unfold model_ready
      rw [hm]
      exact List.all_eq_true.mpr (fun f hf => by simpa [existsOn] using hall f hf)
  · intro m hm f hf
    unfold model_ready
    rw [hm]
    by_contra hcon
    have hall := List.all_eq_true.mp (by simpa using hcon) f hf
    have : (id, file_dest_name f) ∈ removeFile d (id, file_dest_name f) := by
      simpa [existsOn] using hall
    exact absurd (mem_removeFile.mp this).2 (by simp)
  · intro h
    unfold model_ready
    rw [h]

/-- Witness for `model_ready_spec`: the whisper-small model is ready on a
disk holding its single destination file `model.bin`, and deleting that
file flips readiness to false. -/
theorem model_ready_spec_witness :
    model_ready
      (removeFile [("whisper-small-q5_1", "model.bin")] ("whisper-small-q5_1", "model.bin"))
      "whisper-small-q5_1" = false := by
  have hfind : find_model "whisper-small-q5_1" = some whisperSmallQ5 := by decide
  have hmem : ({ url := "https://huggingface.co/ggerganov/whisper.cpp/resolve/main/ggml-small-q5_1.bin", rename_to := some "model.bin" } : ModelFile) ∈ whisperSmallQ5.files := by
    decide
  have h := (model_ready_spec [("whisper-small-q5_1", "model.bin")] "whisper-small-q5_1").2.1
      whisperSmallQ5 hfind _ hmem
  exact h

/-! ## file_queue.rs: SpeedRatio -/

/-- `SPEED_RATIO_USECS` initial value: microseconds of wall-clock time
per second of audio, `1_000_000` = 1:1 ratio. -/
def SPEED_RATIO_INIT : Nat := 1000000

/-- The SpeedRatio update performed after a file job (`transcribe_file`,
file_queue.rs lines 215-219), with `f64` arithmetic embedded as exact
rationals: load the stored ratio, replace it outright if it is exactly
1.0, otherwise blend 30% old / 70% new, and store back as truncated
microseconds. -/
def speedRatioUpdate (stored : Nat) (newRatio : Rat) : Nat :=
  let oldRatio : Rat := (stored : Rat) / 1000000
  let blended : Rat :=
    if oldRatio = 1 then newRatio else oldRatio * (3 / 10) + newRatio * (7 / 10)
  (blended * 1000000).floor.toNat

/-- C3 counterexample: starting from the initial SpeedRatio (1.0),
observing a ratio of 2.0 stores 2.0 (2,000,000 microseconds), not the
claimed 1.0*0.3 + 2.0*0.7 = 1.7 (1,700,000 microseconds): the first
observation takes the replace-outright branch, not the blend. -/
theorem speedRatioUpdate_first_observation_not_blended :
    ¬ speedRatioUpdate SPEED_RATIO_INIT 2 = 1700000 := by
  norm_num [speedRatioUpdate, SPEED_RATIO_INIT]
  simp [Rat.floor]

/-- C3 amended: starting from the initial SpeedRatio of 1.0, the first
observation (2.0) replaces the ratio outright, storing 2.0 (2,000,000
microseconds); the subsequent observation of 1.0 blends 30% old / 70%
new, storing 2.0*0.3 + 1.0*0.7 = 1.3 (1,300,000 microseconds, in the
exact-rational embedding of the `f64` arithmetic). -/
theorem speedRatioUpdate_sequence :
    speedRatioUpdate SPEED_RATIO_INIT 2 = 2000000
    ∧ speedRatioUpdate 2000000 1 = 1300000 := by
  constructor
  · norm_num [speedRatioUpdate, SPEED_RATIO_INIT]
    simp [Rat.floor]
  · norm_num [speedRatioUpdate]
    simp [Rat.floor]

/-! ## state.rs / recorder.rs -/

inductive Status where
  | idle
  | recording
  | transcribing
deriving DecidableEq

/-- The pipeline-relevant part of `AppState`, plus the `ACTIVE_STREAM`
global: session status, shared sample accumulator, and whether a capture
stream is installed. -/
structure RecState where
  status : Status
  audio_buffer : List Rat
  active_stream : Bool
deriving DecidableEq

structure StreamParams where
  channels : Nat
  sample_rate : Nat
deriving DecidableEq

def SAMPLE_RATE : Nat := 16000

/-- `data.chunks_exact(ch)`: split into frames of exactly `ch` samples,
dropping the ragged remainder. -/
def chunksExact (ch : Nat) (data : List Rat) : List (List Rat) :=
  if _h : 0 < ch ∧ ch ≤ data.length then
    data.take ch :: chunksExact ch (data.drop ch)
  else []
termination_by data.length
decreasing_by
  simp only [List.length_drop]
  omega

/-- `mix_to_mono`: average each frame's channels (unweighted). -/
def mix_to_mono (data : List Rat) (channels : Nat) : List Rat :=
  if channels ≤ 1 then data
  else (chunksExact channels data).map (fun frame => frame.sum / (channels : Rat))

/-- `resample_linear`: linear-interpolation resampling, with the `f64`
position arithmetic embedded as exact rationals. -/
def resample_linear (data : List Rat) (src_rate dst_rate : Nat) : List Rat :=
  if src_rate = dst_rate ∨ data = [] then data
  else
    let ratio : Rat := (src_rate : Rat) / (dst_rate : Rat)
    let outLen : Nat := ((data.length : Rat) / ratio).ceil.toNat
    (List.range outLen).map (fun i =>
      let srcPos : Rat := (i : Rat) * ratio
      let idx : Nat := srcPos.floor.toNat
      let frac : Rat := srcPos - (idx : Rat)
      if idx + 1 < data.length then
        data.getD idx 0 * (1 - frac) + data.getD (idx + 1) 0 * frac
      else
        data.getD (min idx (data.length - 1)) 0)

/-- `convert_samples`: raw callback data to 16 kHz mono. -/
def convert_samples (data : List Rat) (p : StreamParams) : List Rat :=
  if p.channels = 1 ∧ p.sample_rate = SAMPLE_RATE then data
  else resample_linear (mix_to_mono data p.channels) p.sample_rate SAMPLE_RATE

/-- `start_recording`: reject while Recording, resolve the device, clear
the buffer, build and play the stream, set status Recording. Device
resolution and stream construction are passed in as outcomes. -/
def start_recording (s : RecState) (deviceAvailable streamOk : Bool) :
    RecState × Except String Unit :=
  if s.status = Status.recording then (s, .error "Already recording")
  else if deviceAvailable = false then (s, .error "No input device available")
  else
    let s1 : RecState := { s with audio_buffer := [] }
    if streamOk = false then (s1, .error "failed to build input stream")
    else ({ s1 with status := Status.recording, active_stream := true }, .ok ())

/-- `stop_recording` (recorder.rs): drop the stream, clone the buffer
out (without clearing it); on an empty buffer set status Idle and fail. -/
def stop_recording (s : RecState) : RecState × Except String (List Rat) :=
  let s1 : RecState := { s with active_stream := false }
  let samples := s1.audio_buffer
  if samples.isEmpty then ({ s1 with status := Status.idle }, .error "No audio recorded")
  else (s1, .ok samples)

/-- `cancel_recording`: drop the stream, clear the buffer, set Idle. -/
def cancel_recording (_s : RecState) : RecState :=
  { status := Status.idle, audio_buffer := [], active_stream := false }

structure StopRun where
  state : RecState
  result : Except String String
  engineInvoked : Bool
  statusTrace : List Status

/-- The `stop_recording` tauri command (commands.rs): drain the recorder,
then set status Transcribing, run the engine (outcome passed in), and on
success return to Idle. `statusTrace` records every `set_status` call made
after the recorder-level stop returned its result. -/
def commands_stop_recording (s : RecState) (transcribeResult : Except String String) :
    StopRun :=
  match stop_recording s with
  | (s1, .error e) => ⟨s1, .error e, false, []⟩
  | (s1, .ok _samples) =>
    let s2 : RecState := { s1 with status := Status.transcribing }
    match transcribeResult with
    | .error e => ⟨s2, .error e, true, [Status.transcribing]⟩
    | .ok text => ⟨{ s2 with status := Status.idle }, .ok text, true,
        [Status.transcribing, Status.idle]⟩

/-- The capture callback installed by `start_recording` (recorder.rs
lines 160-167), iterated over a sequence of `(time_ms, frame)` callback
invocations: append converted samples to the buffer and emit an
amplitude event for every non-empty converted frame — there is no time
check. Returns the final buffer and the emission times. -/
def recordingRun (buffer : List Rat) (p : StreamParams) :
    List (Nat × List Rat) → List Rat × List Nat
  | [] => (buffer, [])
  | (now, data) :: rest =>
    let samples := convert_samples data p
    let out := recordingRun (buffer ++ samples) p rest
    (out.1, (if samples.isEmpty then [] else [now]) ++ out.2)

/-- The monitor callback installed by `start_monitor` (recorder.rs lines
213-229), iterated over `(time_ms, frame)` invocations threading the
`last_emit` instant: skip empty frames, skip when less than 50 ms have
elapsed since `last_emit`, otherwise update `last_emit` and emit for a
non-empty converted frame. Returns the emission times. -/
def monitorRun (lastEmit : Nat) (p : StreamParams) :
    List (Nat × List Rat) → List Nat
  | [] => []
  | (now, data) :: rest =>
    if data.isEmpty then monitorRun lastEmit p rest
    else if now - lastEmit < 50 then monitorRun lastEmit p rest
    else (if (convert_samples data p).isEmpty then [] else [now]) ++ monitorRun now p rest

/-- C2 counterexample: with session status Transcribing (not Idle), a
`start_recording` call is not rejected — it succeeds, contradicting the
claim that `start` fails whenever the status is not Idle. -/
theorem start_recording_while_transcribing_not_rejected :
    (start_recording ⟨Status.transcribing, [], false⟩ true true).2 = Except.ok () := by
  rfl

/-- C2 amended: `start_recording` fails with "Already recording" exactly
when the status is Recording (a call while Transcribing is not
rejected), and on that rejection the state is left unchanged: no stream
is started and the buffer is not cleared. -/
theorem start_recording_reject_iff_recording (s : RecState) (dev ok : Bool) :
    ((start_recording s dev ok).2 = Except.error "Already recording"
      ↔ s.status = Status.recording)
    ∧ (s.status = Status.recording → (start_recording s dev ok).1 = s) := by
  by_cases h : s.status = Status.recording
  · simp [start_recording, h]
  · refine ⟨⟨fun hcon => ?_, fun hs => absurd hs h⟩, fun hs => absurd hs h⟩
    exfalso
    simp only [start_recording] at hcon
    rw [if_neg h] at hcon
    cases dev <;> cases ok <;> simp_all

/-- Witness for `start_recording_reject_iff_recording`: rejecting a
start while Recording leaves the concrete state untouched. -/
theorem start_recording_reject_witness :
    (start_recording ⟨Status.recording, [1], true⟩ true true).1
      = ⟨Status.recording, [1], true⟩ :=
  (start_recording_reject_iff_recording ⟨Status.recording, [1], true⟩ true true).2 rfl

/-- C5 counterexample: stopping a session whose buffer holds one sample
leaves the shared buffer non-empty — `stop_recording` clones the buffer
out but never clears it, contradicting the claim that the buffer is
empty after any stop. -/
theorem stop_recording_buffer_not_cleared :
    ¬ (stop_recording ⟨Status.recording, [1], true⟩).1.audio_buffer = [] := by
  simp [stop_recording]

/-- C5 amended: `stop_recording` takes the samples by cloning the buffer
without clearing it — after a stop the shared buffer still holds exactly
the pre-stop samples (and a non-empty stop returns that clone); the
buffer is emptied only by `cancel_recording` or by a successful
`start_recording`. -/
theorem stop_recording_clones_without_clearing (s : RecState) :
    (stop_recording s).1.audio_buffer = s.audio_buffer
    ∧ (s.audio_buffer ≠ [] → (stop_recording s).2 = Except.ok s.audio_buffer)
    ∧ (cancel_recording s).audio_buffer = []
    ∧ (∀ dev ok : Bool, (start_recording s dev ok).2 = Except.ok () →
        (start_recording s dev ok).1.audio_buffer = []) := by
  refine ⟨?_, ?_, rfl, ?_⟩
  · by_cases h : s.audio_buffer.isEmpty <;> simp [stop_recording, h]
  · intro hne
    have h : s.audio_buffer.isEmpty = false := by
      simpa [List.isEmpty_iff] using hne
    simp [stop_recording, h]
  · intro dev ok hok
    by_cases h : s.status = Status.recording
    · simp [start_recording, h] at hok
    · cases dev <;> cases ok <;> simp_all [start_recording]

/-- Witness for `stop_recording_clones_without_clearing`: a stop of a
one-sample session returns exactly that sample list. -/
theorem stop_recording_clones_witness :
    (stop_recording ⟨Status.recording, [2], true⟩).2 = Except.ok [2] :=
  (stop_recording_clones_without_clearing ⟨Status.recording, [2], true⟩).2.1 (by simp)

/-- C6: stopping with an empty sample buffer returns the "No audio
recorded" error, leaves the status Idle, never invokes the transcription
engine, and the command layer never sets the status to Transcribing on
that path. -/
theorem commands_stop_empty_buffer (s : RecState) (tr : Except String String)
    (h : s.audio_buffer = []) :
    (commands_stop_recording s tr).result = Except.error "No audio recorded"
    ∧ (commands_stop_recording s tr).state.status = Status.idle
    ∧ (commands_stop_recording s tr).engineInvoked = false
    ∧ Status.transcribing ∉ (commands_stop_recording s tr).statusTrace := by
  simp [commands_stop_recording, stop_recording, h]

/-- Witness for `commands_stop_empty_buffer` at a concrete state. -/
theorem commands_stop_empty_buffer_witness :
    (commands_stop_recording ⟨Status.recording, [], true⟩ (Except.ok "hi")).result
        = Except.error "No audio recorded"
    ∧ (commands_stop_recording ⟨Status.recording, [], true⟩ (Except.ok "hi")).state.status
        = Status.idle
    ∧ (commands_stop_recording ⟨Status.recording, [], true⟩ (Except.ok "hi")).engineInvoked
        = false
    ∧ Status.transcribing ∉
        (commands_stop_recording ⟨Status.recording, [], true⟩ (Except.ok "hi")).statusTrace :=
  commands_stop_empty_buffer ⟨Status.recording, [], true⟩ (Except.ok "hi") rfl

theorem chain_le_drop_middle {a b : Nat} {l : List Nat}
    (h : List.Chain' (· ≤ ·) (a :: b :: l)) : List.Chain' (· ≤ ·) (a :: l) := by
  rcases List.chain'_cons'.mp h with ⟨hab, htail⟩
  rcases List.chain'_cons'.mp htail with ⟨hbl, hl⟩
  refine List.chain'_cons'.mpr ⟨?_, hl⟩
  intro y hy
  exact le_trans (by simpa using hab) (hbl y hy)

theorem monitorRun_all_ge (p : StreamParams) :
    ∀ (calls : List (Nat × List Rat)) (lastEmit : Nat),
      List.Chain' (· ≤ ·) (lastEmit :: calls.map Prod.fst) →
      ∀ t ∈ monitorRun lastEmit p calls, lastEmit + 50 ≤ t := by
  intro calls
  induction calls with
  | nil => intro lastEmit _ t ht; simp [monitorRun] at ht
  | cons c rest ih =>
    intro lastEmit hchain t ht
    obtain ⟨now, data⟩ := c
    have hle : lastEmit ≤ now := by
      have := List.chain'_cons'.mp hchain
      simpa using this.1
    by_cases hde : data.isEmpty
    · rw [monitorRun, if_pos hde] at ht
      exact ih lastEmit (chain_le_drop_middle hchain) t ht
    · by_cases h50 : now - lastEmit < 50
      · rw [monitorRun, if_neg hde, if_pos h50] at ht
        exact ih lastEmit (chain_le_drop_middle hchain) t ht
      · rw [monitorRun, if_neg hde, if_neg h50] at ht
        have hnow : lastEmit + 50 ≤ now := by omega
        rcases List.mem_append.mp ht with hl | hr
        · by_cases hcv : (convert_samples data p).isEmpty <;> simp [hcv] at hl
          omega
        · have htail := (List.chain'_cons'.mp hchain).2
          have := ih now htail t hr
          omega

theorem monitorRun_chain (p : StreamParams) :
    ∀ (calls : List (Nat × List Rat)) (lastEmit : Nat),
      List.Chain' (· ≤ ·) (lastEmit :: calls.map Prod.fst) →
      List.Chain' (fun a b => a + 50 ≤ b) (monitorRun lastEmit p calls) := by
  intro calls
  induction calls with
  | nil => intro lastEmit _; simp [monitorRun]
  | cons c rest ih =>
    intro lastEmit hchain
    obtain ⟨now, data⟩ := c
    by_cases hde : data.isEmpty
    · rw [monitorRun, if_pos hde]
      exact ih lastEmit (chain_le_drop_middle hchain)
    · by_cases h50 : now - lastEmit < 50
      · rw [monitorRun, if_neg hde, if_pos h50]
        exact ih lastEmit (chain_le_drop_middle hchain)
      · rw [monitorRun, if_neg hde, if_neg h50]
        have htail := (List.chain'_cons'.mp hchain).2
        by_cases hcv : (convert_samples data p).isEmpty
        · simpa [hcv] using ih now htail
        · simp only [hcv, if_neg, Bool.false_eq_true, List.singleton_append]
          refine List.chain'_cons'.mpr ⟨?_, ih now htail⟩
          intro y hy
          have hmem : y ∈ monitorRun now p rest := List.mem_of_mem_head? hy
          exact monitorRun_all_ge p rest now htail y hmem

/-- C10 counterexample: two recording-callback invocations 1 ms apart
each emit an amplitude event — the live-recording amplitude path has no
throttle, contradicting the claim that consecutive emissions are at
least ~50 ms apart. -/
theorem recording_amplitude_not_throttled :
    ¬ List.Chain' (fun a b => a + 50 ≤ b)
        (recordingRun [] ⟨1, 16000⟩ [(0, [1]), (1, [1])]).2 := by
  intro h
  have h2 : (recordingRun [] ⟨1, 16000⟩ [(0, [1]), (1, [1])]).2 = [0, 1] := by rfl
  rw [h2] at h
  have := List.chain'_cons'.mp h
  have h01 : (0 : Nat) + 50 ≤ 1 := by simpa using this.1
  omega

/-- C10 amended: only the monitor amplitude path is throttled — given
non-decreasing callback times, consecutive `monitor-amplitude` emissions
are at least 50 ms apart; the recording session's `audio-amplitude`
events are emitted on every callback whose converted frame is non-empty,
with no time gating at all. -/
theorem amplitude_throttling_spec (p : StreamParams) (lastEmit : Nat)
    (buffer : List Rat) (calls : List (Nat × List Rat))
    (h : List.Chain' (· ≤ ·) (lastEmit :: calls.map Prod.fst)) :
    List.Chain' (fun a b => a + 50 ≤ b) (monitorRun lastEmit p calls)
    ∧ (recordingRun buffer p calls).2
        = (calls.filter (fun c => !(convert_samples c.2 p).isEmpty)).map Prod.fst := by
  refine ⟨monitorRun_chain p calls lastEmit h, ?_⟩
  clear h
  induction calls generalizing buffer with
  | nil => simp [recordingRun]
  | cons c rest ih =>
    obtain ⟨now, data⟩ := c
    by_cases hcv : (convert_samples data p).isEmpty <;>
      simp [recordingRun, hcv, ih]

/-- Witness for `amplitude_throttling_spec`: a concrete monitor run with
sorted call times yields 50 ms-separated emissions. -/
theorem amplitude_throttling_witness :
    List.Chain' (fun a b => a + 50 ≤ b)
      (monitorRun 0 ⟨1, 16000⟩ [(60, [1]), (70, [1]), (200, [1])]) :=
  (amplitude_throttling_spec ⟨1, 16000⟩ 0 [] [(60, [1]), (70, [1]), (200, [1])]
    (by norm_num [List.chain'_cons])).1

/-! ## file_queue.rs: transcribe_file -/

/-- The two single-flight guards of the batch pipeline
(`AppState.file_processing` / `AppState.file_cancel_requested`). -/
structure FQState where
  file_processing : Bool
  file_cancel_requested : Bool
deriving DecidableEq

def is_processing (s : FQState) : Bool :=
  s.file_processing

/-- `transcribe_file` (file_queue.rs lines 108-266) with its effects
passed in as outcomes: path validation results, the decode result, the
transcription result, whether `cancel()` was called before each of the
two cancellation checkpoints, and whether the output write succeeds.
Mirrors the control flow exactly: the guard is set with a swap, the
cancel flag is reset on entry, decode/write failures return through `?`,
a transcription failure falls through to the final flag-clearing, and
the two cancellation checkpoints reset only the processing flag. -/
def transcribe_file (s : FQState) (fileExists isMedia : Bool)
    (decodeResult : Except String (List Rat × Rat))
    (cancelDuringDecode : Bool)
    (transcribeResult : Except String String)
    (cancelDuringTranscribe : Bool)
    (writeOk : Bool) : FQState × Except String Unit :=
  if fileExists = false then (s, .error "File not found")
  else if isMedia = false then (s, .error "Not a supported media file")
  else if s.file_processing then (s, .error "Already processing a file")
  else
    let s1 : FQState := { file_processing := true, file_cancel_requested := false }
    match decodeResult with
    | .error e => (s1, .error e)
    | .ok _ =>
      let s2 : FQState := { s1 with file_cancel_requested := cancelDuringDecode }
      if s2.file_cancel_requested then ({ s2 with file_processing := false }, .ok ())
      else
        let s3 : FQState := { s2 with file_cancel_requested := cancelDuringTranscribe }
        if s3.file_cancel_requested then ({ s3 with file_processing := false }, .ok ())
        else
          match transcribeResult with
          | .ok _text =>
            if writeOk = false then (s3, .error "Failed to write transcription file")
            else ({ file_processing := false, file_cancel_requested := false }, .ok ())
          | .error _e =>
            ({ file_processing := false, file_cancel_requested := false }, .ok ())

/-- C1 (code bug): on the decode-failure branch `transcribe_file`
returns through `?` without ever clearing the processing flag, so
`is_processing` stays true and the next `transcribe_file` request is
rejected as already processing — the final flag-clearing step is not
unconditional as the spec requires. -/
theorem transcribe_file_decode_error_keeps_processing :
    is_processing (transcribe_file ⟨false, false⟩ true true
        (Except.error "decode failed") false (Except.ok "") false true).1 = true
    ∧ (transcribe_file ⟨false, false⟩ true true
        (Except.error "decode failed") false (Except.ok "") false true).2
        = Except.error "decode failed"
    ∧ (transcribe_file
        (transcribe_file ⟨false, false⟩ true true
          (Except.error "decode failed") false (Except.ok "") false true).1
        true true (Except.ok ([], 10)) false (Except.ok "text") false true).2
        = Except.error "Already processing a file" :=
  ⟨rfl, rfl, rfl⟩

/-! ## transcriber.rs: engine loading (hardware-acceleration policy) -/

inductive Provider where
  | accel
  | cpu
deriving DecidableEq

/-- `load_parakeet`: no-op when a model is cached (single slot, any id);
otherwise, when an accelerated execution config exists (DirectML, on
Windows), try it first and fall back to a CPU-only load on failure;
without one, load CPU-only directly. `attempt` gives the outcome of each
`ParakeetTDT::from_pretrained` call; the returned list records the
attempts made in order. -/
def load_parakeet (cached accelConfigured : Bool) (attempt : Provider → Bool) :
    Except String Unit × List Provider :=
  if cached then (.ok (), [])
  else if accelConfigured then
    if attempt Provider.accel then (.ok (), [Provider.accel])
    else if attempt Provider.cpu then (.ok (), [Provider.accel, Provider.cpu])
    else (.error "Failed to load Parakeet TDT model", [Provider.accel, Provider.cpu])
  else
    if attempt Provider.cpu then (.ok (), [Provider.cpu])
    else (.error "Failed to load Parakeet TDT model", [Provider.cpu])

/-- `load_whisper`: no-op when the same id is cached; otherwise require
the model file and make a single GPU-enabled (`use_gpu(true)`) load
attempt whose failure is surfaced directly — there is no CPU retry in
the code. -/
def load_whisper (cachedId : Option String) (modelId : String)
    (modelFileExists : Bool) (attempt : Provider → Bool) :
    Except String Unit × List Provider :=
  if cachedId = some modelId then (.ok (), [])
  else if modelFileExists = false then (.error "Whisper model file not found", [])
  else if attempt Provider.accel then (.ok (), [Provider.accel])
  else (.error "Failed to load Whisper model", [Provider.accel])

/-- C4 counterexample: a Whisper load whose GPU-enabled attempt fails
surfaces the error after that single attempt even though a CPU attempt
would have succeeded — the caller does observe the first (accelerated)
failure, contradicting the claim that every engine kind retries with a
CPU-only path before surfacing an error. -/
theorem load_whisper_no_cpu_retry :
    load_whisper none "whisper-small-q5_1" true (fun p => decide (p = Provider.cpu))
      = (Except.error "Failed to load Whisper model", [Provider.accel]) := by
  rfl

/-- C4 amended: only the Parakeet engine with an accelerated config
(Windows/DirectML) attempts acceleration first and transparently retries
CPU-only on failure (the caller sees an error only when the CPU attempt
also fails); Parakeet without an accelerated config loads CPU-only
directly, and the Whisper engine makes exactly one GPU-enabled load
attempt whose failure is surfaced without any CPU retry. -/
theorem model_load_acceleration_policy (mid : String) (att : Provider → Bool) :
    ((load_parakeet false true att).1 = Except.ok ()
      ↔ (att Provider.accel = true ∨ att Provider.cpu = true))
    ∧ (load_parakeet false true att).2
        = (if att Provider.accel then [Provider.accel] else [Provider.accel, Provider.cpu])
    ∧ (load_parakeet false false att).2 = [Provider.cpu]
    ∧ ((load_whisper none mid true att).1 = Except.ok () ↔ att Provider.accel = true)
    ∧ (load_whisper none mid true att).2 = [Provider.accel] := by
  cases haccel : att Provider.accel <;> cases hcpu : att Provider.cpu <;>
    simp [load_parakeet, load_whisper, haccel, hcpu]

/-- Witness for `model_load_acceleration_policy`: an accelerated
Parakeet load whose DirectML attempt fails still succeeds through the
CPU fallback. -/
theorem model_load_acceleration_policy_witness :
    (load_parakeet false true (fun p => decide (p = Provider.cpu))).1 = Except.ok () :=
  (model_load_acceleration_policy "whisper-small-q5_1"
    (fun p => decide (p = Provider.cpu))).1.mpr (Or.inr (by decide))

/-! ## transcriber.rs: model acquisition (download_file / do_ensure_model /
ensure_model) -/

inductive EvKind where
  | starting
  | filePart (label : String)
  | complete
deriving DecidableEq

/-- One `model-download-progress` event: which file it concerns, the
per-file percent, the cumulative bytes, and the overall percent. -/
structure ProgressEvent where
  kind : EvKind
  progress : Nat
  overallDownloaded : Nat
  overallProgress : Nat
deriving DecidableEq

/-- `((n as f64 / approx as f64) * 100.0).min(99.0) as u32`, embedded as
truncating Nat arithmetic: the overall percentage, capped at 99. -/
def overallPct (approx n : Nat) : Nat :=
  min (n * 100 / approx) 99

structure DlOut where
  events : List ProgressEvent
  downloaded : Nat

/-- The chunk loop of `download_file` (transcriber.rs lines 46-76):
accumulate bytes, compute per-file and capped overall percentages, and
emit an event only when the rounded overall percentage changes. -/
def dlChunks (label : String) (approx total cumOffset : Nat) :
    List Nat → Nat → Nat → DlOut
  | [], downloaded, _lastPct => ⟨[], downloaded⟩
  | c :: rest, downloaded, lastPct =>
    let downloaded2 := downloaded + c
    let fileProg := if 0 < total then downloaded2 * 100 / total else 0
    let overall := cumOffset + downloaded2
    let op := overallPct approx overall
    if op ≠ lastPct then
      let out := dlChunks label approx total cumOffset rest downloaded2 op
      ⟨⟨EvKind.filePart label, fileProg, overall, op⟩ :: out.events, out.downloaded⟩
    else
      dlChunks label approx total cumOffset rest downloaded2 lastPct

/-- `download_file`: run the chunk loop starting from zero bytes with
`last_overall_pct` seeded from the cumulative offset. -/
def download_file (label : String) (approx total cumOffset : Nat)
    (chunks : List Nat) : DlOut :=
  dlChunks label approx total cumOffset chunks 0 (overallPct approx cumOffset)

/-- Outcome of the network for one file URL: whether the GET succeeds,
the reported content length, the delivered chunk sizes, and whether the
byte stream completes without error. -/
structure DlSched where
  connectOk : Bool
  total : Nat
  chunks : List Nat
  streamOk : Bool

structure LoopOut where
  events : List ProgressEvent
  disk : Disk
  downloaded : Nat
  requests : Nat
  ok : Bool

/-- The rename-on-complete rule (transcriber.rs lines 135-140): after a
file finishes downloading, if a rename-to name is specified, the paths
differ and the target does not already exist, rename (move) the
downloaded file; otherwise leave it as downloaded. -/
def renameStep (id : String) (f : ModelFile) (disk2 : Disk) : Disk :=
  match f.rename_to with
  | none => disk2
  | some r =>
    if lastSegment f.url ≠ r ∧ (id, r) ∉ disk2 then
      insertFile (removeFile disk2 (id, lastSegment f.url)) (id, r)
    else disk2

/-- The per-file loop of `do_ensure_model` (transcriber.rs lines
115-141): for each file still to download, GET the URL (one network
request), create the file on disk, stream the chunks, advance the
cumulative offset, and apply the rename-on-complete rule; any failure
aborts the whole loop, leaving earlier events, files and the partially
written file in place. -/
def filesLoop (approx : Nat) (id : String) (sched : String → DlSched) :
    List ModelFile → Disk → Nat → LoopOut
  | [], disk, _cum => ⟨[], disk, 0, 0, true⟩
  | f :: rest, disk, cum =>
    match (sched f.url).connectOk with
    | false => ⟨[], disk, 0, 1, false⟩
    | true =>
      match (sched f.url).streamOk with
      | false =>
        ⟨(download_file (lastSegment f.url) approx (sched f.url).total cum
            (sched f.url).chunks).events,
          insertFile disk (id, lastSegment f.url),
          (download_file (lastSegment f.url) approx (sched f.url).total cum
            (sched f.url).chunks).downloaded, 1, false⟩
      | true =>
        let dl := download_file (lastSegment f.url) approx (sched f.url).total cum
          (sched f.url).chunks
        let out := filesLoop approx id sched rest
          (renameStep id f (insertFile disk (id, lastSegment f.url)))
          (cum + dl.downloaded)
        ⟨dl.events ++ out.events, out.disk, dl.downloaded + out.downloaded,
          1 + out.requests, out.ok⟩

structure EnsureOut where
  res : Except String Unit
  events : List ProgressEvent
  disk : Disk
  requests : Nat

/-- `do_ensure_model`: resolve the catalog entry, return immediately if
already ready, emit the "starting" bracket, download the missing files,
and emit the terminal 100%/"complete" bracket only when every download
succeeded. -/
def do_ensure_model (disk : Disk) (id : String) (sched : String → DlSched) :
    EnsureOut :=
  match find_model id with
  | none => ⟨.error "Unknown model", [], disk, 0⟩
  | some m =>
    if model_ready disk id then ⟨.ok (), [], disk, 0⟩
    else
      let toDl := m.files.filter (fun f => !(existsOn disk id (file_dest_name f)))
      let out := filesLoop m.approx_bytes id sched toDl disk 0
      if out.ok then
        ⟨.ok (),
          ⟨EvKind.starting, 0, 0, 0⟩ ::
            (out.events ++ [⟨EvKind.complete, 100, out.downloaded, 100⟩]),
          out.disk, out.requests⟩
      else
        ⟨.error "download failed", ⟨EvKind.starting, 0, 0, 0⟩ :: out.events,
          out.disk, out.requests⟩

/-- The `DOWNLOAD_IN_PROGRESS` flag plus the filesystem. -/
structure EnsureState where
  disk : Disk
  download_in_progress : Bool

/-- `ensure_model` (transcriber.rs lines 158-173): return at once when
the model is ready; otherwise take the global compare-and-swap guard —
if it is already held (any id) return success as a no-op — run the
acquisition, and release the guard unconditionally. The `Nat` component
counts network requests issued. -/
def ensure_model (st : EnsureState) (id : String) (sched : String → DlSched) :
    EnsureState × Except String Unit × Nat :=
  if model_ready st.disk id then (st, .ok (), 0)
  else if st.download_in_progress then (st, .ok (), 0)
  else
    let out := do_ensure_model st.disk id sched
    (⟨out.disk, false⟩, out.res, out.requests)

/-- C8: `ensure` succeeds without any network request when the model is
already ready (state untouched) and when the global download guard is
already held by another acquisition (no-op success); and whenever the
guard was free on entry it is free again on exit, whether the
acquisition succeeded or failed. -/
theorem ensure_model_spec (st : EnsureState) (id : String) (sched : String → DlSched) :
    (model_ready st.disk id = true → ensure_model st id sched = (st, Except.ok (), 0))
    ∧ (model_ready st.disk id = false → st.download_in_progress = true →
        ensure_model st id sched = (st, Except.ok (), 0))
    ∧ (st.download_in_progress = false →
        (ensure_model st id sched).1.download_in_progress = false) := by
  refine ⟨fun h => by simp [ensure_model, h], fun h1 h2 => by simp [ensure_model, h1, h2], ?_⟩
  intro hflag
  by_cases hready : model_ready st.disk id
  · simp [ensure_model, hready, hflag]
  · simp [ensure_model, hready, hflag]

/-- Witness for `ensure_model_spec`: with whisper-small's file on disk
the call is an immediate success with zero requests. -/
theorem ensure_model_spec_witness :
    ensure_model ⟨[("whisper-small-q5_1", "model.bin")], false⟩ "whisper-small-q5_1"
        (fun _ => ⟨true, 0, [], true⟩)
      = (⟨[("whisper-small-q5_1", "model.bin")], false⟩, Except.ok (), 0) :=
  (ensure_model_spec ⟨[("whisper-small-q5_1", "model.bin")], false⟩ "whisper-small-q5_1"
    (fun _ => ⟨true, 0, [], true⟩)).1 (by decide)

theorem overallPct_le_99 (approx n : Nat) : overallPct approx n ≤ 99 :=
  min_le_right _ _

theorem overallPct_mono (approx : Nat) {a b : Nat} (h : a ≤ b) :
    overallPct approx a ≤ overallPct approx b :=
  min_le_min (Nat.div_le_div_right (Nat.mul_le_mul_right _ h)) le_rfl

theorem dlChunks_downloaded (label : String) (approx total cumOffset : Nat) :
    ∀ (chunks : List Nat) (downloaded lastPct : Nat),
      (dlChunks label approx total cumOffset chunks downloaded lastPct).downloaded
        = downloaded + chunks.sum := by
  intro chunks
  induction chunks with
  | nil => intro downloaded lastPct; simp [dlChunks]
  | cons c rest ih =>
    intro downloaded lastPct
    by_cases h : overallPct approx (cumOffset + (downloaded + c)) = lastPct
    · rw [dlChunks, if_neg (by simp [h])]
      rw [ih]
      simp [List.sum_cons]
      omega
    · rw [dlChunks, if_pos h]
      dsimp only
      rw [ih]
      simp [List.sum_cons]
      omega

theorem dlChunks_events (label : String) (approx total cumOffset : Nat) :
    ∀ (chunks : List Nat) (downloaded lastPct : Nat),
      lastPct ≤ overallPct approx (cumOffset + downloaded) →
      List.Chain' (fun a b => a.overallProgress ≤ b.overallProgress)
        (dlChunks label approx total cumOffset chunks downloaded lastPct).events
      ∧ ∀ e ∈ (dlChunks label approx total cumOffset chunks downloaded lastPct).events,
          e.kind = EvKind.filePart label
          ∧ lastPct ≤ e.overallProgress
          ∧ e.overallProgress ≤ overallPct approx (cumOffset + (downloaded + chunks.sum))
          ∧ e.overallProgress ≤ 99 := by
  intro chunks
  induction chunks with
  | nil =>
    intro downloaded lastPct _
    simp [dlChunks]
  | cons c rest ih =>
    intro downloaded lastPct hlast
    by_cases h : overallPct approx (cumOffset + (downloaded + c)) = lastPct
    · rw [dlChunks, if_neg (by simp [h])]
      have hlast2 : lastPct ≤ overallPct approx (cumOffset + (downloaded + c)) := h.ge
      have ihh := ih (downloaded + c) lastPct hlast2
      refine ⟨ihh.1, ?_⟩
      intro e he
      have h2 := ihh.2 e he
      refine ⟨h2.1, h2.2.1, ?_, h2.2.2.2⟩
      have h3 := h2.2.2.1
      have harr : downloaded + c + rest.sum = downloaded + (c :: rest).sum := by
        simp [List.sum_cons]
        omega
      rw [← harr]
      exact h3
    · rw [dlChunks, if_pos h]
      dsimp only
      have hstep : lastPct ≤ overallPct approx (cumOffset + (downloaded + c)) :=
        le_trans hlast (overallPct_mono approx (by omega))
      have ihh := ih (downloaded + c) (overallPct approx (cumOffset + (downloaded + c))) le_rfl
      have harr : downloaded + c + rest.sum = downloaded + (c :: rest).sum := by
        simp [List.sum_cons]
        omega
      constructor
      · refine List.chain'_cons'.mpr ⟨?_, ihh.1⟩
        intro y hy
        exact (ihh.2 y (List.mem_of_mem_head? hy)).2.1
      · intro e he
        rcases List.mem_cons.mp he with he0 | herest
        · subst he0
          refine ⟨rfl, hstep, ?_, overallPct_le_99 _ _⟩
          exact overallPct_mono approx (by simp [List.sum_cons])
        · have h2 := ihh.2 e herest
          refine ⟨h2.1, le_trans hstep h2.2.1, ?_, h2.2.2.2⟩
          have h3 := h2.2.2.1
          rw [← harr]
          exact h3

theorem download_file_events (label : String) (approx total cumOffset : Nat)
    (chunks : List Nat) :
    List.Chain' (fun a b => a.overallProgress ≤ b.overallProgress)
      (download_file label approx total cumOffset chunks).events
    ∧ ∀ e ∈ (download_file label approx total cumOffset chunks).events,
        e.kind = EvKind.filePart label
        ∧ overallPct approx cumOffset ≤ e.overallProgress
        ∧ e.overallProgress ≤ overallPct approx
            (cumOffset + (download_file label approx total cumOffset chunks).downloaded)
        ∧ e.overallProgress ≤ 99 := by
  have h := dlChunks_events label approx total cumOffset chunks 0
    (overallPct approx cumOffset) (by simp)
  have hd := dlChunks_downloaded label approx total cumOffset chunks 0
    (overallPct approx cumOffset)
  refine ⟨h.1, ?_⟩
  intro e he
  have h2 := h.2 e he
  refine ⟨h2.1, h2.2.1, ?_, h2.2.2.2⟩
  rw [download_file, hd]
  exact h2.2.2.1

theorem filesLoop_events (approx : Nat) (id : String) (sched : String → DlSched) :
    ∀ (files : List ModelFile) (disk : Disk) (cum : Nat),
      List.Chain' (fun a b => a.overallProgress ≤ b.overallProgress)
        (filesLoop approx id sched files disk cum).events
      ∧ ∀ e ∈ (filesLoop approx id sched files disk cum).events,
          (∃ l, e.kind = EvKind.filePart l)
          ∧ overallPct approx cum ≤ e.overallProgress
          ∧ e.overallProgress ≤ 99 := by
  intro files
  induction files with
  | nil => intro disk cum; simp [filesLoop]
  | cons f rest ih =>
    intro disk cum
    rw [filesLoop]
    cases hconn : (sched f.url).connectOk
    · simp
    · cases hstream : (sched f.url).streamOk
      · dsimp only
        have hdl := download_file_events (lastSegment f.url) approx (sched f.url).total cum
          (sched f.url).chunks
        refine ⟨hdl.1, ?_⟩
        intro e he
        have h2 := hdl.2 e he
        exact ⟨⟨_, h2.1⟩, h2.2.1, h2.2.2.2⟩
      · dsimp only
        have hdl := download_file_events (lastSegment f.url) approx (sched f.url).total cum
          (sched f.url).chunks
        have hout := ih (renameStep id f (insertFile disk (id, lastSegment f.url)))
          (cum + (download_file (lastSegment f.url) approx (sched f.url).total cum
            (sched f.url).chunks).downloaded)
        constructor
        · refine List.chain'_append.mpr ⟨hdl.1, hout.1, ?_⟩
          intro x hx y hy
          have hxm := List.mem_of_mem_getLast? hx
          have hym := List.mem_of_mem_head? hy
          calc x.overallProgress
              ≤ overallPct approx (cum + (download_file (lastSegment f.url) approx
                  (sched f.url).total cum (sched f.url).chunks).downloaded) :=
                (hdl.2 x hxm).2.2.1
            _ ≤ y.overallProgress := (hout.2 y hym).2.1
        · intro e he
          rcases List.mem_append.mp he with hl | hr
          · have h2 := hdl.2 e hl
            exact ⟨⟨_, h2.1⟩, h2.2.1, h2.2.2.2⟩
          · have h2 := hout.2 e hr
            refine ⟨h2.1, ?_, h2.2.2⟩
            exact le_trans (overallPct_mono approx (Nat.le_add_right _ _)) h2.2.1

theorem renameStep_preserves (id : String) (f : ModelFile) (disk2 : Disk)
    (p : String × String)
    (h : f.rename_to.isSome = true → p ≠ (id, lastSegment f.url))
    (hp : p ∈ disk2) : p ∈ renameStep id f disk2 := by
  unfold renameStep
  cases hrn : f.rename_to with
  | none => exact hp
  | some r =>
    dsimp only
    by_cases hc : lastSegment f.url ≠ r ∧ (id, r) ∉ disk2
    · rw [if_pos hc]
      have hne : p ≠ (id, lastSegment f.url) := h (by simp [hrn])
      exact List.mem_cons_of_mem _ (mem_removeFile.mpr ⟨hp, hne⟩)
    · rw [if_neg hc]
      exact hp

theorem renameStep_dest_mem (id : String) (f : ModelFile) (disk2 : Disk)
    (h : (id, lastSegment f.url) ∈ disk2) :
    (id, file_dest_name f) ∈ renameStep id f disk2 := by
  unfold renameStep file_dest_name
  cases hrn : f.rename_to with
  | none => exact h
  | some r =>
    dsimp only
    by_cases hc : lastSegment f.url ≠ r ∧ (id, r) ∉ disk2
    · rw [if_pos hc]
      exact List.mem_cons_self _ _
    · rw [if_neg hc]
      rcases not_and_or.mp hc with h1 | h2
      · have : lastSegment f.url = r := not_not.mp h1
        rw [← this]
        exact h
      · exact not_not.mp h2

theorem filesLoop_preserves (approx : Nat) (id : String) (sched : String → DlSched) :
    ∀ (files : List ModelFile) (disk : Disk) (cum : Nat) (p : String × String),
      (∀ f ∈ files, f.rename_to.isSome = true → p ≠ (id, lastSegment f.url)) →
      p ∈ disk → p ∈ (filesLoop approx id sched files disk cum).disk := by
  intro files
  induction files with
  | nil => intro disk cum p _ hp; simpa [filesLoop] using hp
  | cons f rest ih =>
    intro disk cum p hnf hp
    rw [filesLoop]
    cases hconn : (sched f.url).connectOk
    · exact hp
    · cases hstream : (sched f.url).streamOk
      · exact List.mem_cons_of_mem _ hp
      · dsimp only
        refine ih _ _ p (fun g hg hs => hnf g (List.mem_cons_of_mem _ hg) hs) ?_
        refine renameStep_preserves id f _ p (fun hs => hnf f (List.mem_cons_self _ _) hs) ?_
        exact List.mem_cons_of_mem _ hp

theorem filesLoop_dest_present (approx : Nat) (id : String) (sched : String → DlSched) :
    ∀ (files : List ModelFile) (disk : Disk) (cum : Nat),
      (∀ g ∈ files, ∀ f2 ∈ files, f2.rename_to.isSome = true →
          file_dest_name g ≠ lastSegment f2.url) →
      (filesLoop approx id sched files disk cum).ok = true →
      ∀ f ∈ files, (id, file_dest_name f) ∈ (filesLoop approx id sched files disk cum).disk := by
  intro files
  induction files with
  | nil => intro disk cum _ _ f hf; exact absurd hf (List.not_mem_nil f)
  | cons f rest ih =>
    intro disk cum hH hok g hg
    rw [filesLoop] at hok ⊢
    cases hconn : (sched f.url).connectOk
    · rw [hconn] at hok; exact absurd hok (by simp)
    · cases hstream : (sched f.url).streamOk
      · rw [hconn, hstream] at hok; exact absurd hok (by simp)
      · rw [hconn, hstream] at hok
        dsimp only at hok ⊢
        rcases List.mem_cons.mp hg with hgf | hgr
        · subst hgf
          refine filesLoop_preserves approx id sched rest _ _ _ ?_ ?_
          · intro f2 hf2 hs
            have hne := hH g (List.mem_cons_self _ _) f2 (List.mem_cons_of_mem _ hf2) hs
            intro hc
            exact hne (by simpa using congrArg Prod.snd hc)
          · refine renameStep_dest_mem id g _ ?_
            exact List.mem_cons_self _ _
        · refine ih _ _ ?_ hok g hgr
          intro g2 hg2 f2 hf2 hs
          exact hH g2 (List.mem_cons_of_mem _ hg2) f2 (List.mem_cons_of_mem _ hf2) hs

/-- No catalog model's destination file name collides with the
download-time (pre-rename) name of a renamed file, so a later rename can
never remove an earlier file's destination. -/
theorem MODELS_noClobber :
    ∀ m ∈ MODELS, ∀ g ∈ m.files, ∀ f2 ∈ m.files,
      f2.rename_to.isSome = true → file_dest_name g ≠ lastSegment f2.url := by
  decide

/-- C9: within one model acquisition, the overall download percentage
carried by successive `model-download-progress` events is monotonically
non-decreasing, every event other than the terminal one is capped at
99%, and the terminal 100%/"complete" event, when emitted, is the last
event, the acquisition succeeded, and every one of the model's
destination files exists on disk at that point. -/
theorem download_progress_spec (disk : Disk) (id : String) (sched : String → DlSched)
    (m : ModelDef) (hfind : find_model id = some m) :
    List.Chain' (fun a b => a.overallProgress ≤ b.overallProgress)
      (do_ensure_model disk id sched).events
    ∧ (∀ e ∈ (do_ensure_model disk id sched).events,
        e.kind ≠ EvKind.complete → e.overallProgress ≤ 99)
    ∧ (∀ e ∈ (do_ensure_model disk id sched).events, e.kind = EvKind.complete →
        (do_ensure_model disk id sched).events.getLast? = some e
        ∧ (do_ensure_model disk id sched).res = Except.ok ()
        ∧ ∀ f ∈ m.files, (id, file_dest_name f) ∈ (do_ensure_model disk id sched).disk) := by
  have hmem : m ∈ MODELS := List.mem_of_find?_eq_some hfind
  have hH := MODELS_noClobber m hmem
  unfold do_ensure_model
  rw [hfind]
  dsimp only
  by_cases hready : model_ready disk id = true
  · rw [if_pos hready]
    exact ⟨by simp, by simp, by simp⟩
  · rw [if_neg hready]
    have hloop := filesLoop_events m.approx_bytes id sched
      (m.files.filter (fun f => !(existsOn disk id (file_dest_name f)))) disk 0
    cases hok : (filesLoop m.approx_bytes id sched
        (m.files.filter (fun f => !(existsOn disk id (file_dest_name f)))) disk 0).ok
    · rw [if_neg (by simp [hok])]
      dsimp only
      refine ⟨?_, ?_, ?_⟩
      · refine List.chain'_cons'.mpr ⟨fun y _ => Nat.zero_le _, hloop.1⟩
      · intro e he _
        rcases List.mem_cons.mp he with he0 | herest
        · subst he0; decide
        · exact (hloop.2 e herest).2.2
      · intro e he hkind
        exfalso
        rcases List.mem_cons.mp he with he0 | herest
        · subst he0; exact EvKind.noConfusion hkind
        · obtain ⟨l, hl⟩ := (hloop.2 e herest).1
          rw [hl] at hkind
          exact EvKind.noConfusion hkind
    · rw [if_pos (by simp [hok])]
      dsimp only
      refine ⟨?_, ?_, ?_⟩
      · refine List.chain'_cons'.mpr ⟨fun y _ => Nat.zero_le _, ?_⟩
        refine List.chain'_append.mpr ⟨hloop.1, List.chain'_singleton _, ?_⟩
        intro x hx y hy
        have hxm := List.mem_of_mem_getLast? hx
        have hy2 : y = ⟨EvKind.complete, 100,
            (filesLoop m.approx_bytes id sched
              (m.files.filter (fun f => !(existsOn disk id (file_dest_name f)))) disk 0).downloaded,
            100⟩ := by
          simpa [eq_comm] using hy
        subst hy2
        exact le_trans (hloop.2 x hxm).2.2 (by norm_num)
      · intro e he hkind
        rcases List.mem_cons.mp he with he0 | herest
        · subst he0; decide
        · rcases List.mem_append.mp herest with hl | hc
          · exact (hloop.2 e hl).2.2
          · exfalso
            have he2 := List.mem_singleton.mp hc
            rw [he2] at hkind
            exact hkind rfl
      · intro e he hkind
        have he2 : e = ⟨EvKind.complete, 100,
            (filesLoop m.approx_bytes id sched
              (m.files.filter (fun f => !(existsOn disk id (file_dest_name f)))) disk 0).downloaded,
            100⟩ := by
          rcases List.mem_cons.mp he with he0 | herest
          · exfalso; subst he0; exact EvKind.noConfusion hkind
          · rcases List.mem_append.mp herest with hl | hc
            · exfalso
              obtain ⟨l, hl2⟩ := (hloop.2 e hl).1
              rw [hl2] at hkind
              exact EvKind.noConfusion hkind
            · exact List.mem_singleton.mp hc
        refine ⟨?_, rfl, ?_⟩
        · rw [he2, ← List.cons_append]
          exact List.getLast?_concat _
        · intro f hf
          by_cases hex : (id, file_dest_name f) ∈ disk
          · refine filesLoop_preserves m.approx_bytes id sched _ disk 0 (id, file_dest_name f)
              ?_ hex
            intro f2 hf2 hs hcontra
            exact hH f hf f2 (List.mem_of_mem_filter hf2) hs
              (by simpa using congrArg Prod.snd hcontra)
          · have hfin : f ∈ m.files.filter (fun g => !(existsOn disk id (file_dest_name g))) :=
              List.mem_filter.mpr ⟨hf, by simp [existsOn, hex]⟩
            refine filesLoop_dest_present m.approx_bytes id sched _ disk 0 ?_ hok f hfin
            intro g hg f2 hf2 hs
            exact hH g (List.mem_of_mem_filter hg) f2 (List.mem_of_mem_filter hf2) hs

/-- Witness for `download_progress_spec` at a concrete catalog model and
an empty network schedule. -/
theorem download_progress_spec_witness :
    List.Chain' (fun a b => a.overallProgress ≤ b.overallProgress)
      (do_ensure_model [] "whisper-small-q5_1" (fun _ => ⟨true, 0, [], true⟩)).events :=
  (download_progress_spec [] "whisper-small-q5_1" (fun _ => ⟨true, 0, [], true⟩)
    whisperSmallQ5 (by decide)).1

end Parsec
